import Mathlib

/-!
Verification of the iSCSI/ZFS reconciliation agent (`src/main.py`).

The Python program is shallowly embedded: subprocess execution is modelled
by passing the subprocess outcome (exit code, stdout, stderr) as an explicit
value, the parsers become pure functions over the listing lines, and Python
sets become `Finset String`.  Python string methods (`strip`, `split`,
`lower`, `startswith`, `in`) are re-implemented over `List Char` so that
every definition evaluates inside the kernel; the models are faithful for
ASCII data, which is the character range the tool's inputs use.
-/

/-- Whitespace recognised by Python `str.strip()` / `str.split()`
(space, tab, newline, carriage return, vertical tab, form feed). -/
def isWs (c : Char) : Bool :=
  c = ' ' || c = '\t' || c = '\n' || c = '\r' || c = '\x0b' || c = '\x0c'

/-- Python `b.startswith(a)` on character lists (also the worker for both
prefix tests of the source: `str.startswith` and list-prefix matching). -/
def pyStarts : List Char → List Char → Bool
  | [], _ => true
  | _ :: _, [] => false
  | a :: as, b :: bs => a = b && pyStarts as bs

/-- Python `a in b` substring containment on character lists. -/
def isSubstr (p : List Char) : List Char → Bool
  | [] => p.isEmpty
  | c :: rest => pyStarts p (c :: rest) || isSubstr p rest

/-- Worker for Python `str.split()` (split on whitespace runs, no empty
fields); `acc` holds the current field reversed. -/
def splitWsAux : List Char → List Char → List (List Char)
  | [], acc => if acc.isEmpty then [] else [acc.reverse]
  | c :: rest, acc =>
    if isWs c then
      (if acc.isEmpty then splitWsAux rest [] else acc.reverse :: splitWsAux rest [])
    else splitWsAux rest (c :: acc)

/-- Python `line.split()`: whitespace-separated fields, empties dropped. -/
def pyFields (s : String) : List String :=
  (splitWsAux s.data []).map String.mk

/-- Python `s.strip()`: drop leading and trailing whitespace. -/
def pyStrip (l : List Char) : List Char :=
  ((l.dropWhile isWs).reverse.dropWhile isWs).reverse

/-- Python `s.split(sep)` for a one-character separator: empty pieces are
kept, and splitting the empty string yields one empty piece. -/
def splitOnChar (sep : Char) : List Char → List (List Char)
  | [] => [[]]
  | c :: rest =>
    let r := splitOnChar sep rest
    if c = sep then [] :: r
    else
      match r with
      | [] => [[c]]
      | h :: t => (c :: h) :: t

/-- Python `s.lower()` (ASCII range, which is all the tool compares). -/
def pyLower (s : String) : String := String.mk (s.data.map Char.toLower)

/-- Python `s.splitlines()` for newline-delimited text: the final piece
produced by a trailing newline is dropped, and the empty string has no
lines. -/
def splitlines (s : String) : List String :=
  if s.data.isEmpty then []
  else
    let parts := splitOnChar '\n' s.data
    let parts := if (parts.getLastD []).isEmpty then parts.dropLast else parts
    parts.map String.mk

/-- Configuration read from the environment that affects command wrapping:
`USE_NSENTER` and the effective uid of the process (`os.geteuid()`). -/
structure Config where
  use_nsenter : Bool
  euid : Nat
deriving DecidableEq

/-- Outcome of one subprocess execution: exit code (negative for signals,
as in Python's `returncode`), captured stdout and stderr. -/
structure CmdOutcome where
  exitCode : Int
  stdout : String
  stderr : String
deriving DecidableEq

/-- What `run_command` hands back to its caller: the returned string and
the lines it printed to stderr. -/
structure RunResult where
  output : String
  errLog : List String
deriving DecidableEq

/-- Command wrapping of `run_command` (src/main.py lines 28-33): nsenter
into the host namespaces when configured and running as root, otherwise
sudo when not root. -/
def wrap_command (cfg : Config) (command : String) : String :=
  if cfg.use_nsenter && cfg.euid = 0 then
    "nsenter -t 1 -m -u -n -i -- " ++ command
  else if cfg.euid ≠ 0 then "sudo " ++ command
  else command

/-- Embedding of `run_command` (src/main.py lines 25-43) applied to the
outcome of the wrapped subprocess: exit 0 returns stripped stdout; a
`CalledProcessError` with returncode 1 is swallowed silently; any other
non-zero returncode is reported to stderr together with the (wrapped)
command; every non-zero exit returns the empty string. -/
def run_command (cfg : Config) (command : String) (out : CmdOutcome) : RunResult :=
  let c := wrap_command cfg command
  if out.exitCode = 0 then
    ⟨String.mk (pyStrip out.stdout.data), []⟩
  else if out.exitCode = 1 then ⟨"", []⟩
  else ⟨"", ["Error running command: " ++ c, out.stderr]⟩

/-- Character class of the identifier pattern `pvc-[a-f0-9-]+`. -/
def pvcClassChar (c : Char) : Bool :=
  ('a' ≤ c && c ≤ 'f') || ('0' ≤ c && c ≤ '9') || c = '-'

/-- Try to match the regex `pvc-[a-f0-9-]+` at the head of the list
(greedy, at least one class character), returning the matched characters. -/
def pvcMatchAt : List Char → Option (List Char)
  | c1 :: c2 :: c3 :: c4 :: rest =>
    if c1 = 'p' && c2 = 'v' && c3 = 'c' && c4 = '-' then
      if (rest.takeWhile pvcClassChar).isEmpty then none
      else some (c1 :: c2 :: c3 :: c4 :: rest.takeWhile pvcClassChar)
    else none
  | _ => none

/-- Leftmost match of `pvc-[a-f0-9-]+` anywhere in the list, as Python's
`re.search` finds it. -/
def pvcSearch : List Char → Option (List Char)
  | [] => none
  | c :: rest =>
    match pvcMatchAt (c :: rest) with
    | some m => some m
    | none => pvcSearch rest

/-- Python `re.search(r'(pvc-[a-f0-9-]+)', s)` returning `group(1)`. -/
def re_search_pvc (s : String) : Option String :=
  (pvcSearch s.data).map String.mk

/-- Embedding of `get_iscsi_nodes` (src/main.py lines 45-61) over the lines
of the listing output: a line contributes when it contains the IQN prefix,
has a second whitespace field, and the identifier pattern matches inside
that field; the matched identifier joins the set and the full second field
is appended to the target list. -/
def get_iscsi_nodes (iqnPfx : String) (lines : List String) :
    Finset String × List String :=
  lines.foldl
    (fun acc line =>
      if isSubstr iqnPfx.data line.data then
        match pyFields line with
        | _ :: iqn :: _ =>
          match re_search_pvc iqn with
          | some m => (insert m acc.1, acc.2 ++ [iqn])
          | none => acc
        | _ => acc
      else acc)
    (∅, [])

/-- Embedding of the parsing loop of `get_zfs_volumes` (src/main.py lines
63-76): keep the final `/`-segment of each stripped line that starts with
the parent dataset path, when that segment starts with `pvc-`. -/
def get_zfs_volumes (zfsParent : String) (lines : List String) : Finset String :=
  lines.foldl
    (fun uuids line =>
      if pyStarts zfsParent.data (pyStrip line.data) then
        if pyStarts "pvc-".data ((splitOnChar '/' (pyStrip line.data)).getLastD []) then
          insert (String.mk ((splitOnChar '/' (pyStrip line.data)).getLastD [])) uuids
        else uuids
      else uuids)
    ∅

/-- The full ZFS collection pipeline of `get_zfs_volumes`: run the listing
command through `run_command` (with the given subprocess outcome) and parse
the lines of the returned output. -/
def get_zfs_volumes_run (cfg : Config) (zfsParent : String) (out : CmdOutcome) :
    Finset String :=
  get_zfs_volumes zfsParent
    (splitlines
      (run_command cfg ("zfs list -t volume -H -o name -r " ++ zfsParent) out).output)

/-- Embedding of `get_k8s_pvs` (src/main.py lines 78-101).  The cluster API
interaction (credential loading plus the persistent-volume listing) is the
input: `Except.ok` carries the listed PV names, `Except.error` any exception
message raised inside the `try` block.  On success the names starting with
`pvc-` are collected; on any exception a warning is printed and the empty
set is returned. -/
def get_k8s_pvs (api : Except String (List String)) : Finset String × List String :=
  match api with
  | Except.ok pvNames =>
    (pvNames.foldl
      (fun uuids n => if pyStarts "pvc-".data n.data then insert n uuids else uuids)
      ∅, [])
  | Except.error e =>
    (∅, ["[!] Failed to talk to K8s API: " ++ e,
         "    Ensure ServiceAccount has permissions to list PVs."])

/-- Embedding of the reconciliation step of `main` (src/main.py line 146):
`stale_iscsi = iscsi_uuids - zfs_uuids`.  The cluster inventory
`k8s_uuids` is in scope in `main` but takes no part in the computation. -/
def stale_iscsi (iscsi_uuids zfs_uuids k8s_uuids : Finset String) : Finset String :=
  iscsi_uuids \ zfs_uuids

/-- The logout command built by `cleanup_iscsi` (src/main.py line 114). -/
def logout_cmd (target : String) : String :=
  "iscsiadm -m node -T " ++ target ++ " -u"

/-- The delete command built by `cleanup_iscsi` (src/main.py line 115). -/
def delete_cmd (target : String) : String :=
  "iscsiadm -m node -T " ++ target ++ " -o delete"

/-- Target resolution of `cleanup_iscsi` (src/main.py line 112): the first
list element containing the identifier as a substring, `none` otherwise. -/
def find_target (full_targets_list : List String) (uuid : String) : Option String :=
  full_targets_list.find? (fun t => isSubstr uuid.data t.data)

/-- One iteration of the `cleanup_iscsi` loop body (src/main.py lines
110-126) for a single identifier: the lines it prints and the commands it
passes to `run_command`. -/
def cleanup_entry (dry_run : Bool) (full_targets_list : List String) (uuid : String) :
    List String × List String :=
  match find_target full_targets_list uuid with
  | none => ([], [])
  | some target =>
    let printed := ["  -> " ++ logout_cmd target, "  -> " ++ delete_cmd target]
    if dry_run then (printed ++ ["     (Dry Run: skipped)"], [])
    else (printed, [logout_cmd target, delete_cmd target])

/-- Embedding of `cleanup_iscsi` (src/main.py lines 103-126): returns the
printed lines and, in order, the commands handed to `run_command`. -/
def cleanup_iscsi (dry_run : Bool) (targets_to_remove full_targets_list : List String) :
    List String × List String :=
  if targets_to_remove.isEmpty then ([], [])
  else
    targets_to_remove.foldl
      (fun acc uuid =>
        let e := cleanup_entry dry_run full_targets_list uuid
        (acc.1 ++ e.1, acc.2 ++ e.2))
      (["[ACTION] Cleaning up " ++ Nat.repr targets_to_remove.length ++
          " stale targets..."], [])

/-- The invocation log of a live (`DRY_RUN=false`) cleanup run against a
world that maps each executed command to its subprocess outcome: the source
discards both `run_command` results, so the log is the executed command
list paired with the outcomes the world assigns. -/
def executed_with (world : String → CmdOutcome)
    (targets_to_remove full_targets_list : List String) :
    List (String × CmdOutcome) :=
  ((cleanup_iscsi false targets_to_remove full_targets_list).2).map
    (fun c => (c, world c))

/-- Embedding of the `DRY_RUN` computation (src/main.py line 19):
`os.getenv("DRY_RUN", "true").lower() == "true"`, with `none` standing for
an unset variable. -/
def dry_run_of_env (v : Option String) : Bool :=
  pyLower (v.getD "true") == "true"

/-- Per-line identifier extraction of `get_iscsi_nodes`, used to state its
characterisation: the identifier a line contributes, if any. -/
def iscsi_line_id (iqnPfx : String) (line : String) : Option String :=
  if isSubstr iqnPfx.data line.data then
    match pyFields line with
    | _ :: iqn :: _ => re_search_pvc iqn
    | _ => none
  else none

/-- Per-line target extraction of `get_iscsi_nodes`: the second field a
line appends to the target list, if any. -/
def iscsi_line_target (iqnPfx : String) (line : String) : Option String :=
  if isSubstr iqnPfx.data line.data then
    match pyFields line with
    | _ :: iqn :: _ => (re_search_pvc iqn).map (fun _ => iqn)
    | _ => none
  else none

/-- Per-line identifier extraction of `get_zfs_volumes`, used to state its
characterisation. -/
def zfs_line_id (zfsParent : String) (line : String) : Option String :=
  if pyStarts zfsParent.data (pyStrip line.data) then
    if pyStarts "pvc-".data ((splitOnChar '/' (pyStrip line.data)).getLastD []) then
      some (String.mk ((splitOnChar '/' (pyStrip line.data)).getLastD []))
    else none
  else none

/-! Helper lemmas about the cleanup loop and list search. -/

lemma cleanup_foldl (d : Bool) (fulls : List String) (stale : List String) :
    ∀ p e : List String,
      stale.foldl
        (fun acc uuid =>
          let x := cleanup_entry d fulls uuid
          (acc.1 ++ x.1, acc.2 ++ x.2)) (p, e)
        = (p ++ (stale.map (fun u => (cleanup_entry d fulls u).1)).flatten,
           e ++ (stale.map (fun u => (cleanup_entry d fulls u).2)).flatten) := by
  induction stale with
  | nil => intro p e; simp
  | cons u rest ih => intro p e; simp [ih, List.append_assoc]

lemma cleanup_iscsi_eq (d : Bool) (stale fulls : List String) (h : stale ≠ []) :
    cleanup_iscsi d stale fulls
      = (("[ACTION] Cleaning up " ++ Nat.repr stale.length ++ " stale targets...")
           :: (stale.map (fun u => (cleanup_entry d fulls u).1)).flatten,
         (stale.map (fun u => (cleanup_entry d fulls u).2)).flatten) := by
  obtain ⟨u, rest, rfl⟩ : ∃ u rest, stale = u :: rest := by
    cases stale with
    | nil => exact absurd rfl h
    | cons u rest => exact ⟨u, rest, rfl⟩
  unfold cleanup_iscsi
  rw [cleanup_foldl]
  simp

lemma cleanup_exec_eq (d : Bool) (stale fulls : List String) :
    (cleanup_iscsi d stale fulls).2
      = (stale.map (fun u => (cleanup_entry d fulls u).2)).flatten := by
  cases stale with
  | nil => rfl
  | cons u rest => rw [cleanup_iscsi_eq d (u :: rest) fulls (by simp)]

lemma find?_first {α : Type} (p : α → Bool) :
    ∀ (l : List α) (a : α), l.find? p = some a →
      ∃ l1 l2, l = l1 ++ a :: l2 ∧ p a = true ∧ ∀ x ∈ l1, p x = false := by
  intro l
  induction l with
  | nil => intro a h; simp [List.find?] at h
  | cons b rest ih =>
    intro a h
    by_cases hb : p b = true
    · rw [List.find?_cons_of_pos _ hb] at h
      injection h with h
      subst h
      exact ⟨[], rest, rfl, hb, by simp⟩
    · rw [List.find?_cons_of_neg _ (by simpa using hb)] at h
      obtain ⟨l1, l2, hl, hp, hall⟩ := ih a h
      refine ⟨b :: l1, l2, by simp [hl], hp, ?_⟩
      intro x hx
      rcases List.mem_cons.mp hx with rfl | hx2
      · simpa using hb
      · exact hall x hx2

lemma cleanup_entry_dry_exec (fulls : List String) (u : String) :
    (cleanup_entry true fulls u).2 = [] := by
  unfold cleanup_entry
  cases find_target fulls u <;> simp

lemma cleanup_entry_live_exec (fulls : List String) (u t : String)
    (h : find_target fulls u = some t) :
    (cleanup_entry false fulls u).2 = [logout_cmd t, delete_cmd t] := by
  simp [cleanup_entry, h]

lemma cleanup_entry_dry_printed (fulls : List String) (u t : String)
    (h : find_target fulls u = some t) :
    (cleanup_entry true fulls u).1
      = ["  -> " ++ logout_cmd t, "  -> " ++ delete_cmd t,
         "     (Dry Run: skipped)"] := by
  simp [cleanup_entry, h]

lemma cleanup_entry_none (d : Bool) (fulls : List String) (u : String)
    (h : find_target fulls u = none) :
    cleanup_entry d fulls u = ([], []) := by
  simp [cleanup_entry, h]

/-- C2: the reconciler is exactly the set difference of the iSCSI and ZFS
inventories: `stale_iscsi A B K = A − B`, so `stale_iscsi A A K = ∅` and
`stale_iscsi ∅ B K = ∅`, and the cluster inventory argument `K` has no
effect on the result. -/
theorem reconcile_is_set_difference (A B K K2 : Finset String) :
    stale_iscsi A B K = A \ B ∧ stale_iscsi A A K = ∅ ∧
    stale_iscsi ∅ B K = ∅ ∧ stale_iscsi A B K = stale_iscsi A B K2 := by
  refine ⟨rfl, Finset.sdiff_self A, ?_, rfl⟩
  simp [stale_iscsi]

/-- C4: the command executor is a total function of the subprocess outcome:
exit code 0 yields the stripped stdout with nothing reported, exit code 1
yields empty output with nothing reported, and any other exit yields empty
output after reporting the (wrapped) command and the captured stderr. -/
theorem run_command_total_spec (cfg : Config) (command : String) (out : CmdOutcome) :
    (out.exitCode = 0 →
      run_command cfg command out = ⟨String.mk (pyStrip out.stdout.data), []⟩) ∧
    (out.exitCode = 1 → run_command cfg command out = ⟨"", []⟩) ∧
    (out.exitCode ≠ 0 → out.exitCode ≠ 1 →
      run_command cfg command out
        = ⟨"", ["Error running command: " ++ wrap_command cfg command,
                out.stderr]⟩) := by
  refine ⟨fun h0 => ?_, fun h1 => ?_, fun h0 h1 => ?_⟩
  · simp [run_command, h0]
  · simp [run_command, h1]
  · simp [run_command, h0, h1]

/-- C6: on any exception from the cluster API interaction the collector
returns the empty inventory (count zero) together with a printed warning,
instead of propagating the failure. -/
theorem k8s_collector_fail_safe (e : String) :
    (get_k8s_pvs (Except.error e)).1 = ∅ ∧
    (get_k8s_pvs (Except.error e)).2 ≠ [] ∧
    (get_k8s_pvs (Except.error e)).1.card = 0 := by
  refine ⟨rfl, by simp [get_k8s_pvs], rfl⟩

/-- C10: dry-run mode holds exactly when `DRY_RUN` is unset or lowercases
to `"true"`; any other value (e.g. `"yes"`, `"1"`, `"on"`) selects live
mode, in which the cleanup loop hands the logout and delete commands to the
command executor. -/
theorem dry_run_env_spec :
    (∀ v : Option String,
       dry_run_of_env v = true ↔
         (v = none ∨ ∃ s, v = some s ∧ pyLower s = "true")) ∧
    dry_run_of_env (some "yes") = false ∧
    dry_run_of_env (some "1") = false ∧
    dry_run_of_env (some "on") = false ∧
    (∀ v u t fulls, dry_run_of_env v = false → find_target fulls u = some t →
       logout_cmd t ∈ (cleanup_iscsi (dry_run_of_env v) [u] fulls).2 ∧
       delete_cmd t ∈ (cleanup_iscsi (dry_run_of_env v) [u] fulls).2) := by
  refine ⟨?_, by decide, by decide, by decide, ?_⟩
  · intro v
    cases v with
    | none => exact ⟨fun _ => Or.inl rfl, fun _ => by decide⟩
    | some s =>
      constructor
      · intro h
        simp only [dry_run_of_env, Option.getD_some, beq_iff_eq] at h
        exact Or.inr ⟨s, rfl, h⟩
      · rintro (h | ⟨s2, hs2, hlow⟩)
        · exact absurd h (by simp)
        · injection hs2 with hs2
          subst hs2
          simp only [dry_run_of_env, Option.getD_some, beq_iff_eq]
          exact hlow
  · intro v u t fulls hdry ht
    rw [hdry]
    have hexec : (cleanup_iscsi false [u] fulls).2 = [logout_cmd t, delete_cmd t] := by
      rw [cleanup_exec_eq]
      simp [cleanup_entry_live_exec fulls u t ht]
    rw [hexec]
    exact ⟨by simp, by simp⟩

/-- C1 counterexample: a run in which the ZFS listing command fails with
exit code 2 (non-zero, other than 1) while the iSCSI inventory `{"pvc-a"}`
is non-empty, yet the computed stale set equals the entire iSCSI inventory
— refuting the claim as stated. -/
theorem zfs_failure_cex :
    (({"pvc-a"} : Finset String) ≠ ∅) ∧
    ((2 : Int) ≠ 0) ∧ ((2 : Int) ≠ 1) ∧
    stale_iscsi {"pvc-a"}
        (get_zfs_volumes_run ⟨true, 0⟩ "data/csi/iscsi" ⟨2, "", "dataset error"⟩) ∅
      = {"pvc-a"} := by decide

/-- C1 amended: when the ZFS listing command fails with any non-zero exit
code other than 1, the ZFS inventory degrades to empty, so the computed
stale set equals the entire iSCSI inventory — the code has no guard that
distinguishes a missing ZFS data source from an empty one. -/
theorem zfs_failure_stale_is_everything (cfg : Config) (zfsParent : String)
    (out : CmdOutcome) (iscsi_uuids k8s_uuids : Finset String)
    (h0 : out.exitCode ≠ 0) (h1 : out.exitCode ≠ 1) :
    stale_iscsi iscsi_uuids (get_zfs_volumes_run cfg zfsParent out) k8s_uuids
      = iscsi_uuids := by
  have hout :
      (run_command cfg ("zfs list -t volume -H -o name -r " ++ zfsParent)
        out).output = "" := by
    simp [run_command, h0, h1]
  unfold stale_iscsi get_zfs_volumes_run
  rw [hout]
  have h2 : get_zfs_volumes zfsParent (splitlines "") = ∅ := rfl
  rw [h2, Finset.sdiff_empty]

/-- Witness for the amended C1 theorem at a concrete failing run. -/
theorem zfs_failure_stale_is_everything_witness :
    stale_iscsi {"pvc-b"}
        (get_zfs_volumes_run ⟨false, 0⟩ "tank/vols" ⟨255, "", "permission denied"⟩) ∅
      = {"pvc-b"} :=
  zfs_failure_stale_is_everything ⟨false, 0⟩ "tank/vols"
    ⟨255, "", "permission denied"⟩ {"pvc-b"} ∅ (by decide) (by decide)

/-- C3: with a non-empty stale set in dry-run mode the cleanup loop hands
no command to the command executor (so no host state is mutated), while
for every stale identifier whose target resolves, both the logout and the
delete command are printed. -/
theorem dry_run_prints_but_never_executes (stale fulls : List String)
    (hne : stale ≠ []) :
    (cleanup_iscsi true stale fulls).2 = [] ∧
    ∀ u ∈ stale, ∀ t, find_target fulls u = some t →
      ("  -> " ++ logout_cmd t) ∈ (cleanup_iscsi true stale fulls).1 ∧
      ("  -> " ++ delete_cmd t) ∈ (cleanup_iscsi true stale fulls).1 := by
  constructor
  · rw [cleanup_exec_eq]
    rw [List.flatten_eq_nil_iff]
    intro l hl
    obtain ⟨u, _, rfl⟩ := List.mem_map.mp hl
    exact cleanup_entry_dry_exec fulls u
  · intro u hu t ht
    rw [cleanup_iscsi_eq true stale fulls hne]
    have hpr := cleanup_entry_dry_printed fulls u t ht
    have hmem : (cleanup_entry true fulls u).1
        ∈ stale.map (fun x => (cleanup_entry true fulls x).1) :=
      List.mem_map_of_mem _ hu
    refine ⟨List.mem_cons_of_mem _ (List.mem_flatten.mpr ⟨_, hmem, ?_⟩),
            List.mem_cons_of_mem _ (List.mem_flatten.mpr ⟨_, hmem, ?_⟩)⟩
    · rw [hpr]; simp
    · rw [hpr]; simp

/-- Witness for C3 at a concrete stale set and target list. -/
theorem dry_run_prints_but_never_executes_witness :
    (cleanup_iscsi true ["pvc-a"] ["iqn.x:pvc-a"]).2 = [] ∧
    (∀ u ∈ (["pvc-a"] : List String), ∀ t,
       find_target ["iqn.x:pvc-a"] u = some t →
       ("  -> " ++ logout_cmd t) ∈ (cleanup_iscsi true ["pvc-a"] ["iqn.x:pvc-a"]).1 ∧
       ("  -> " ++ delete_cmd t) ∈ (cleanup_iscsi true ["pvc-a"] ["iqn.x:pvc-a"]).1) :=
  dry_run_prints_but_never_executes ["pvc-a"] ["iqn.x:pvc-a"] (by decide)

/-- C5: in live mode, for a stale identifier whose target resolves, the
delete command is handed to the executor immediately after the logout
command, for any world of subprocess outcomes — in particular one in which
the logout command fails with a non-zero exit code: the source never
inspects the logout result before issuing the delete. -/
theorem live_delete_follows_logout (world : String → CmdOutcome)
    (stale fulls : List String) (u t : String)
    (hu : u ∈ stale) (ht : find_target fulls u = some t)
    (hfail : (world (logout_cmd t)).exitCode ≠ 0) :
    ∃ pre post,
      executed_with world stale fulls
        = pre ++ (logout_cmd t, world (logout_cmd t))
            :: (delete_cmd t, world (delete_cmd t)) :: post := by
  obtain ⟨l1, l2, rfl⟩ := List.append_of_mem hu
  have hexec : (cleanup_iscsi false (l1 ++ u :: l2) fulls).2
      = (l1.map (fun x => (cleanup_entry false fulls x).2)).flatten
        ++ logout_cmd t :: delete_cmd t
        :: (l2.map (fun x => (cleanup_entry false fulls x).2)).flatten := by
    rw [cleanup_exec_eq]
    simp [cleanup_entry_live_exec fulls u t ht]
  refine ⟨((l1.map (fun x => (cleanup_entry false fulls x).2)).flatten).map
            (fun c => (c, world c)),
          ((l2.map (fun x => (cleanup_entry false fulls x).2)).flatten).map
            (fun c => (c, world c)), ?_⟩
  unfold executed_with
  rw [hexec]
  simp

/-- Witness for C5: the logout outcome has exit code 2 and the delete is
still issued right after it. -/
theorem live_delete_follows_logout_witness :
    ∃ pre post,
      executed_with (fun _ => ⟨2, "", "iscsiadm: could not log out"⟩)
          ["pvc-a"] ["iqn.x:pvc-a"]
        = pre ++ (logout_cmd "iqn.x:pvc-a", ⟨2, "", "iscsiadm: could not log out"⟩)
            :: (delete_cmd "iqn.x:pvc-a", ⟨2, "", "iscsiadm: could not log out"⟩)
            :: post :=
  live_delete_follows_logout (fun _ => ⟨2, "", "iscsiadm: could not log out"⟩)
    ["pvc-a"] ["iqn.x:pvc-a"] "pvc-a" "iqn.x:pvc-a"
    (by decide) (by decide) (by decide)

/-- C9: the cleanup loop is a no-op on an empty stale set; every executed
command belongs to a stale identifier whose resolved target is the first
list element containing it as a substring (earlier elements do not contain
it); and an identifier contained in no target name contributes nothing. -/
theorem cleanup_scope_spec (d : Bool) (stale fulls : List String) :
    cleanup_iscsi d [] fulls = ([], []) ∧
    (∀ c ∈ (cleanup_iscsi false stale fulls).2,
       ∃ u ∈ stale, ∃ t, find_target fulls u = some t ∧
         (c = logout_cmd t ∨ c = delete_cmd t)) ∧
    (∀ u t, find_target fulls u = some t →
       isSubstr u.data t.data = true ∧
       ∃ l1 l2, fulls = l1 ++ t :: l2 ∧
         ∀ t2 ∈ l1, isSubstr u.data t2.data = false) ∧
    (∀ u rest, find_target fulls u = none →
       (cleanup_iscsi d (u :: rest) fulls).2 = (cleanup_iscsi d rest fulls).2) := by
  refine ⟨rfl, ?_, ?_, ?_⟩
  · intro c hc
    rw [cleanup_exec_eq] at hc
    obtain ⟨l, hl, hcl⟩ := List.mem_flatten.mp hc
    obtain ⟨u, hu, rfl⟩ := List.mem_map.mp hl
    cases ht : find_target fulls u with
    | none => rw [cleanup_entry_none false fulls u ht] at hcl; simp at hcl
    | some t =>
      rw [cleanup_entry_live_exec fulls u t ht] at hcl
      rcases List.mem_cons.mp hcl with rfl | hcl2
      · exact ⟨u, hu, t, ht, Or.inl rfl⟩
      · rcases List.mem_cons.mp hcl2 with rfl | h3
        · exact ⟨u, hu, t, ht, Or.inr rfl⟩
        · simp at h3
  · intro u t ht
    unfold find_target at ht
    obtain ⟨l1, l2, hl, hp, hall⟩ := find?_first _ fulls t ht
    exact ⟨hp, l1, l2, hl, hall⟩
  · intro u rest hnone
    rw [cleanup_exec_eq, cleanup_exec_eq]
    simp [cleanup_entry_none d fulls u hnone]

/-! Helper lemmas for the collector characterisations (C7, C8). -/

lemma pyStarts_append (m tail : List Char) : pyStarts m (m ++ tail) = true := by
  induction m with
  | nil => rfl
  | cons c cs ih => simp [pyStarts, ih]

lemma pyStarts_isSubstr (p l : List Char) (h : pyStarts p l = true) :
    isSubstr p l = true := by
  cases l with
  | nil =>
    cases p with
    | nil => rfl
    | cons a as => simp [pyStarts] at h
  | cons c rest => simp [isSubstr, h]

lemma isSubstr_cons (p : List Char) (c : Char) (rest : List Char)
    (h : isSubstr p rest = true) : isSubstr p (c :: rest) = true := by
  simp [isSubstr, h]

lemma pvcMatchAt_spec (l m : List Char) (h : pvcMatchAt l = some m) :
    pyStarts "pvc-".data m = true ∧ ∃ tail, l = m ++ tail := by
  rcases l with _ | ⟨c1, _ | ⟨c2, _ | ⟨c3, _ | ⟨c4, rest⟩⟩⟩⟩
  · simp [pvcMatchAt] at h
  · simp [pvcMatchAt] at h
  · simp [pvcMatchAt] at h
  · simp [pvcMatchAt] at h
  · simp only [pvcMatchAt] at h
    split_ifs at h with hc hb
    injection h with h
    subst h
    obtain ⟨rfl, rfl, rfl, rfl⟩ : c1 = 'p' ∧ c2 = 'v' ∧ c3 = 'c' ∧ c4 = '-' := by
      simp only [Bool.and_eq_true, decide_eq_true_eq] at hc
      tauto
    refine ⟨by simp [pyStarts], rest.dropWhile pvcClassChar, ?_⟩
    simp [List.takeWhile_append_dropWhile]

lemma pvcSearch_spec (l m : List Char) (h : pvcSearch l = some m) :
    pyStarts "pvc-".data m = true ∧ isSubstr m l = true := by
  induction l with
  | nil => simp [pvcSearch] at h
  | cons c rest ih =>
    rw [pvcSearch] at h
    cases hm : pvcMatchAt (c :: rest) with
    | some m2 =>
      rw [hm] at h
      injection h with h
      subst h
      obtain ⟨hstart, tail, htail⟩ := pvcMatchAt_spec _ _ hm
      refine ⟨hstart, ?_⟩
      rw [htail]
      exact pyStarts_isSubstr _ _ (pyStarts_append _ _)
    | none =>
      rw [hm] at h
      obtain ⟨hstart, hsub⟩ := ih h
      exact ⟨hstart, isSubstr_cons _ _ _ hsub⟩

lemma iscsi_fold (iqnPfx : String) (lines : List String) :
    ∀ (s : Finset String) (ts : List String),
      lines.foldl
        (fun acc line =>
          if isSubstr iqnPfx.data line.data then
            match pyFields line with
            | _ :: iqn :: _ =>
              match re_search_pvc iqn with
              | some m => (insert m acc.1, acc.2 ++ [iqn])
              | none => acc
            | _ => acc
          else acc) (s, ts)
        = (s ∪ (lines.filterMap (iscsi_line_id iqnPfx)).toFinset,
           ts ++ lines.filterMap (iscsi_line_target iqnPfx)) := by
  induction lines with
  | nil => intro s ts; simp
  | cons line rest ih =>
    intro s ts
    rw [List.foldl_cons]
    by_cases h : isSubstr iqnPfx.data line.data = true
    · rcases hp : pyFields line with _ | ⟨f0, fr⟩
      · simp [h, hp, ih, iscsi_line_id, iscsi_line_target]
      · rcases fr with _ | ⟨iqn, frest⟩
        · simp [h, hp, ih, iscsi_line_id, iscsi_line_target]
        · rcases hm : re_search_pvc iqn with _ | m
          · simp [h, hp, hm, ih, iscsi_line_id, iscsi_line_target]
          · simp [h, hp, hm, ih, iscsi_line_id, iscsi_line_target,
                  Finset.insert_union, Finset.union_insert, List.append_assoc]
    · simp [h, ih, iscsi_line_id, iscsi_line_target]

lemma get_iscsi_nodes_eq (iqnPfx : String) (lines : List String) :
    get_iscsi_nodes iqnPfx lines
      = ((lines.filterMap (iscsi_line_id iqnPfx)).toFinset,
         lines.filterMap (iscsi_line_target iqnPfx)) := by
  unfold get_iscsi_nodes
  rw [iscsi_fold]
  simp

lemma iscsi_line_id_eq_some (iqnPfx line u : String) :
    iscsi_line_id iqnPfx line = some u ↔
      isSubstr iqnPfx.data line.data = true ∧
      ∃ f0 iqn rest, pyFields line = f0 :: iqn :: rest ∧
        re_search_pvc iqn = some u := by
  unfold iscsi_line_id
  by_cases h : isSubstr iqnPfx.data line.data = true
  · rcases hp : pyFields line with _ | ⟨f0, fr⟩
    · simp [h, hp]
    · rcases fr with _ | ⟨iqn, frest⟩
      · simp [h, hp]
      · rw [if_pos h]
        constructor
        · intro hm
          exact ⟨h, f0, iqn, frest, rfl, hm⟩
        · rintro ⟨-, f0', iqn', rest', heq, hm⟩
          obtain ⟨rfl, rfl, rfl⟩ : f0 = f0' ∧ iqn = iqn' ∧ frest = rest' := by
            injection heq with h1 h2
            injection h2 with h2 h3
            exact ⟨h1, h2, h3⟩
          exact hm
  · simp [h]

lemma zfs_fold (zfsParent : String) (lines : List String) :
    ∀ s : Finset String,
      lines.foldl
        (fun uuids line =>
          if pyStarts zfsParent.data (pyStrip line.data) then
            if pyStarts "pvc-".data ((splitOnChar '/' (pyStrip line.data)).getLastD []) then
              insert (String.mk ((splitOnChar '/' (pyStrip line.data)).getLastD [])) uuids
            else uuids
          else uuids) s
        = s ∪ (lines.filterMap (zfs_line_id zfsParent)).toFinset := by
  induction lines with
  | nil => intro s; simp
  | cons line rest ih =>
    intro s
    simp only [List.foldl_cons]
    rw [ih]
    by_cases h1 : pyStarts zfsParent.data (pyStrip line.data) = true
    · by_cases h2 :
        pyStarts "pvc-".data ((splitOnChar '/' (pyStrip line.data)).getLastD []) = true
      · rw [if_pos h1, if_pos h2]
        have hz : zfs_line_id zfsParent line
            = some (String.mk ((splitOnChar '/' (pyStrip line.data)).getLastD [])) := by
          unfold zfs_line_id
          rw [if_pos h1, if_pos h2]
        simp only [List.filterMap_cons, hz, List.toFinset_cons]
        rw [Finset.insert_union, Finset.union_insert]
      · rw [if_pos h1, if_neg h2]
        have hz : zfs_line_id zfsParent line = none := by
          unfold zfs_line_id
          rw [if_pos h1, if_neg h2]
        simp only [List.filterMap_cons, hz]
    · rw [if_neg h1]
      have hz : zfs_line_id zfsParent line = none := by
        unfold zfs_line_id
        rw [if_neg h1]
      simp only [List.filterMap_cons, hz]

lemma zfs_line_id_eq_some (zfsParent line u : String) :
    zfs_line_id zfsParent line = some u ↔
      pyStarts zfsParent.data (pyStrip line.data) = true ∧
      String.mk ((splitOnChar '/' (pyStrip line.data)).getLastD []) = u ∧
      pyStarts "pvc-".data u.data = true := by
  unfold zfs_line_id
  by_cases h1 : pyStarts zfsParent.data (pyStrip line.data) = true
  · rw [if_pos h1]
    by_cases h2 :
      pyStarts "pvc-".data ((splitOnChar '/' (pyStrip line.data)).getLastD []) = true
    · rw [if_pos h2]
      constructor
      · intro h
        injection h with h
        subst h
        exact ⟨h1, rfl, h2⟩
      · rintro ⟨-, hseg, -⟩
        rw [hseg]
    · rw [if_neg h2]
      constructor
      · intro h
        exact absurd h (by simp)
      · rintro ⟨-, hseg, hpvc⟩
        subst hseg
        exact absurd hpvc h2
  · rw [if_neg h1]
    constructor
    · intro h
      exact absurd h (by simp)
    · rintro ⟨hc, -, -⟩
      exact absurd hc h1

/-- C7: an identifier is in the iSCSI inventory exactly when some listing
line contains the IQN prefix, has a second whitespace-separated field, and
the identifier pattern matches inside that field; the target list is the
per-line second fields in line order; and a matched identifier starts with
`pvc-` and occurs inside the second field.  Deduplication of the inventory
is inherent in its `Finset` type. -/
theorem iscsi_collector_spec (iqnPfx : String) (lines : List String) :
    (∀ u, u ∈ (get_iscsi_nodes iqnPfx lines).1 ↔
       ∃ line ∈ lines, isSubstr iqnPfx.data line.data = true ∧
         ∃ f0 iqn rest, pyFields line = f0 :: iqn :: rest ∧
           re_search_pvc iqn = some u) ∧
    (get_iscsi_nodes iqnPfx lines).2 = lines.filterMap (iscsi_line_target iqnPfx) ∧
    (∀ iqn u, re_search_pvc iqn = some u →
       pyStarts "pvc-".data u.data = true ∧ isSubstr u.data iqn.data = true) := by
  refine ⟨?_, ?_, ?_⟩
  · intro u
    rw [get_iscsi_nodes_eq]
    simp only [List.mem_toFinset, List.mem_filterMap]
    constructor
    · rintro ⟨line, hline, hid⟩
      exact ⟨line, hline, (iscsi_line_id_eq_some iqnPfx line u).mp hid⟩
    · rintro ⟨line, hline, hcond⟩
      exact ⟨line, hline, (iscsi_line_id_eq_some iqnPfx line u).mpr hcond⟩
  · rw [get_iscsi_nodes_eq]
  · intro iqn u h
    unfold re_search_pvc at h
    cases hm : pvcSearch iqn.data with
    | none => rw [hm] at h; exact absurd h (by simp)
    | some mc =>
      rw [hm] at h
      simp only [Option.map_some'] at h
      injection h with h
      subst h
      obtain ⟨h1, h2⟩ := pvcSearch_spec _ _ hm
      exact ⟨h1, h2⟩

/-- C8: an identifier is in the ZFS inventory exactly when some listing
line, once stripped, starts with the parent dataset path, its final
`/`-segment is that identifier, and the segment starts with `pvc-`; every
other line — in particular any path outside the parent dataset — is
excluded. -/
theorem zfs_collector_spec (zfsParent : String) (lines : List String) :
    ∀ u, u ∈ get_zfs_volumes zfsParent lines ↔
      ∃ line ∈ lines,
        pyStarts zfsParent.data (pyStrip line.data) = true ∧
        String.mk ((splitOnChar '/' (pyStrip line.data)).getLastD []) = u ∧
        pyStarts "pvc-".data u.data = true := by
  intro u
  unfold get_zfs_volumes
  rw [zfs_fold]
  simp only [Finset.empty_union, List.mem_toFinset, List.mem_filterMap]
  constructor
  · rintro ⟨line, hline, hid⟩
    exact ⟨line, hline, (zfs_line_id_eq_some zfsParent line u).mp hid⟩
  · rintro ⟨line, hline, hcond⟩
    exact ⟨line, hline, (zfs_line_id_eq_some zfsParent line u).mpr hcond⟩
